import Mathlib

/-!
Verification of the implicit-geometry slicing and archive-codec pipeline.

This file gives a shallow embedding, in Lean 4, of the parts of the
repository that the specification's checkable sentences talk about:

* the CTB PackBits-style run-length encoder `rle_encode_ctb`
  (src/exporters/ctb_exporter.py),
* the Anycubic `(count, value)` run-length encoder `encode_pw0_image`
  (src/exporters/anycubic_exporter.py),
* the CTB archive offset table (create_ctb_archive),
* the slicer's layer-count / z-height arithmetic and pixel-occupancy rule
  (src/sampler.py, generate_png_slices),
* the box signed-distance field (src/implicit_core/primitives.py and the
  flat-document evaluator in src/sampler.py),
* the constructor-time behaviour of cylinder, the periodic lattices and
  the Voronoi foam (src/implicit_core),
* the node-graph evaluator (src/loader.py).

Numbers are modelled as rationals (the Python code computes with IEEE
floats; every property below is about the exact arithmetic structure of
the code, not about rounding).  Calls into `math.sqrt`, `math.sin`,
`math.cos` and the external mesh collaborator are abstracted as oracle
functions, constrained only by the hypotheses each theorem states.
Python exceptions are modelled by the `PyErr` error type, and the
unbounded recursion of `evaluate_node` by a fuel parameter:
`PyErr.fuelExhausted` for every fuel value is the rendering of a
recursion that never completes (Python's RecursionError).
-/

/-- Python exceptions observable in the embedded code.  The repository
defines no structured error taxonomy (no InvalidParameter,
MalformedDocument, CyclicGraphError, ... classes exist anywhere in it);
these constructors are the built-in Python exceptions its code can raise. -/
inductive PyErr where
  | keyError          -- dict subscript with an absent key
  | indexError        -- list subscript out of range
  | valueError        -- raise ValueError(...)
  | zeroDivisionError -- float division by zero
  | fuelExhausted     -- recursion that exceeds any finite budget (RecursionError)
deriving DecidableEq, Repr

/-! ## CTB PackBits-style RLE (src/exporters/ctb_exporter.py, rle_encode_ctb)

The Python encoder receives `raw_bits`, a row-major 1-bit bitmap packed
8 bits per byte, and reads pixel `(x, y)` as bit `7 - (i & 7)` of byte
`i >> 3` with `i = y*width + x`.  Bytes beyond the end of `raw_bits`
(which would raise IndexError in Python) are modelled as 0; callers
always pass a buffer covering all `width*height` bits. -/

/-- Bit `(x, y)` of the packed row-major bitmap, at flat bit index `i`:
`(raw_bits[i >> 3] >> (7 - (i & 7))) & 1`. -/
def testBitCTB (raw : List Nat) (i : Nat) : Bool :=
  Nat.testBit (raw.getD (i / 8) 0) (7 - i % 8)

/-- Emission loop of `rle_encode_ctb`: split a run of `run` equal pixels of
value `v` into chunks of at most 127, emitting bytes
`(0x80 | this_run, 0xFF if v else 0x00)` for each chunk. -/
def emitChunks : Nat → Bool → List Nat
  | 0, _ => []
  | r + 1, v =>
    let t := min (r + 1) 127
    (128 ||| t) :: (if v then 255 else 0) :: emitChunks (r + 1 - t) v
termination_by r _ => r
decreasing_by
  omega

/-- Run counter of `rle_encode_ctb`: the length of the maximal prefix of
`bits start, bits (start+1), ...` equal to `v`, looking at most `rem`
pixels ahead (the remainder of the current row). -/
def runLen (bits : Nat → Bool) (v : Bool) (start rem : Nat) : Nat :=
  match rem with
  | 0 => 0
  | r + 1 => if bits start = v then 1 + runLen bits v (start + 1) r else 0

theorem runLen_le (bits : Nat → Bool) (v : Bool) (start rem : Nat) :
    runLen bits v start rem ≤ rem := by
  induction rem generalizing start with
  | zero => simp [runLen]
  | succ r ih =>
    simp only [runLen]
    split
    · have := ih (start + 1)
      omega
    · omega

theorem runLen_pos (bits : Nat → Bool) (start r : Nat) :
    1 ≤ runLen bits (bits start) start (r + 1) := by
  simp [runLen]

/-- Inner `while x < width` loop of `rle_encode_ctb`, for one row: `idx` is
the flat bit index of the current pixel and `rem` the number of pixels
left in the row.  Each step reads the current pixel value, counts its
maximal run within the row, emits the capped chunks for it and advances
past the run. -/
def encodeRowAux (bits : Nat → Bool) (idx rem : Nat) : List Nat :=
  match rem with
  | 0 => []
  | r + 1 =>
    let v := bits idx
    let run := runLen bits v idx (r + 1)
    emitChunks run v ++ encodeRowAux bits (idx + run) (r + 1 - run)
termination_by rem
decreasing_by
  have h1 : 1 ≤ runLen bits (bits idx) idx (r + 1) := runLen_pos bits idx r
  omega

/-- Outer `for y in range(height)` loop of `rle_encode_ctb`: encode rows
`y, y+1, ..., y+rows-1`, each of `w` pixels, concatenating the per-row
payloads (CTB RLE has no end-of-line marker). -/
def encodeRowsFrom (bits : Nat → Bool) (w y rows : Nat) : List Nat :=
  match rows with
  | 0 => []
  | r + 1 => encodeRowAux bits (y * w) w ++ encodeRowsFrom bits w (y + 1) r

/-- CTB-style PackBits RLE of a packed 1-bit row-major bitmap
(rle_encode_ctb in src/exporters/ctb_exporter.py). -/
def rle_encode_ctb (raw : List Nat) (width height : Nat) : List Nat :=
  encodeRowsFrom (testBitCTB raw) width 0 height

/-- Modelled from the spec: the repository ships no decoder for its CTB
payloads, so this decoder transcribes the documented chunk format — a
stream of 2-byte chunks `(0x80 | run_length, 0xFF if bit==1 else 0x00)`,
each expanding to `run_length` copies of the bit. -/
def rle_decode_ctb : List Nat → List Bool
  | b1 :: b2 :: rest => List.replicate (b1 % 128) (b2 == 255) ++ rle_decode_ctb rest
  | _ => []

/-- Bit content that `rle_encode_ctb` reads from its input: the
`height*width` bits of the row-major bitmap in scan order. -/
def bitmapBits (raw : List Nat) (width height : Nat) : List Bool :=
  (List.range (height * width)).map (testBitCTB raw)

/-- Consecutive byte pairs of an RLE payload (the payload's 2-byte chunks). -/
def chunkPairs : List Nat → List (Nat × Nat)
  | b1 :: b2 :: rest => (b1, b2) :: chunkPairs rest
  | _ => []

/-! ## Anycubic (count, value) RLE (src/exporters/anycubic_exporter.py,
encode_pw0_image)

The Python encoder loads the PNG as 8-bit grayscale, forces every pixel
to 0 or 255 (`np.where(arr < 128, 0, 255)`), flattens row-major, and
emits `(count, value)` byte pairs with counts capped at 255.  The image
is modelled as its row-major pixel list. -/

/-- Binarization `np.where(arr < 128, 0, 255)` applied per pixel. -/
def binarize (v : Nat) : Nat := if v < 128 then 0 else 255

/-- Main loop of the pw0 RLE: `rv`/`rl` are `run_value`/`run_length`; on
each pixel, extend the current run when the value matches and the run is
below 255, otherwise emit `(run_length & 0xFF, run_value)` and start a
new run; after the loop the final run is emitted. -/
def pw0Loop (rv rl : Nat) : List Nat → List Nat
  | [] => [rl % 256, rv]
  | pix :: rest =>
    if pix = rv ∧ rl < 255 then pw0Loop rv (rl + 1) rest
    else rl % 256 :: rv :: pw0Loop pix 1 rest

/-- RLE payload section of `encode_pw0_image`: `flat[0]` seeds the first
run (IndexError on an empty pixel list). -/
def pw0Rle (flat : List Nat) : Except PyErr (List Nat) :=
  match flat with
  | [] => .error .indexError
  | p :: rest => .ok (pw0Loop p 1 rest)

/-- Little-endian 16-bit packing `struct.pack("<H", v)` of a value below 2^16. -/
def le16 (v : Nat) : List Nat := [v % 256, v / 256 % 256]

/-- Anycubic .pw0Img encoder (encode_pw0_image): checks the image size
against the declared width/height (ValueError on mismatch), binarizes,
then returns the 8-byte header (width, height, x_offset, y_offset as
little-endian 16-bit fields) followed by the RLE payload. -/
def encode_pw0_image (flat : List Nat) (width height xOff yOff : Nat) :
    Except PyErr (List Nat) :=
  if flat.length ≠ width * height then .error .valueError
  else do
    let payload ← pw0Rle (flat.map binarize)
    pure (le16 width ++ le16 height ++ le16 xOff ++ le16 yOff ++ payload)

/-- Modelled from the spec: the repository ships no decoder for its
Anycubic payloads, so this decoder transcribes the documented format — a
stream of `(count, value)` byte pairs, each expanding to `count` copies
of the 8-bit grayscale value. -/
def rle_decode_pw0 : List Nat → List Nat
  | c :: v :: rest => List.replicate c v ++ rle_decode_pw0 rest
  | _ => []

/-! ## CTB archive offset table (src/exporters/ctb_exporter.py,
create_ctb_archive steps 2–3) -/

/-- Offset-table loop of `create_ctb_archive`:
`offsets = [0]*(n+1); offsets[i+1] = offsets[i] + len(rle_buffers[i])`,
rendered as a recursion threading the running offset `acc`. -/
def buildOffsets (acc : Nat) : List Nat → List Nat
  | [] => [acc]
  | l :: rest => acc :: buildOffsets (acc + l) rest

/-- Offset table of the CTB archive for the given packed layer bitmaps:
cumulative byte offsets of the RLE payloads `rle_encode_ctb layer w h`. -/
def ctb_offsets (layers : List (List Nat)) (width height : Nat) : List Nat :=
  buildOffsets 0 (layers.map (fun raw => (rle_encode_ctb raw width height).length))

/-! ## Slicer layer arithmetic and occupancy (src/sampler.py,
generate_png_slices)

All three slicing paths (the flat single-sphere path, the flat
boolean/box/gyroid path and the node-graph path) compute
`num_layers = int(math.ceil((zmax - zmin) / layer_thickness)) + 1`.
The node-graph path then samples layer `i` at `z = zmin + i *
layer_thickness`, while both flat paths iterate over
`np.linspace(zmin, zmax, num_layers)`. -/

/-- Layer count `int(math.ceil((zmax - zmin) / layer_thickness)) + 1`,
identical on all three slicing paths (sampler.py lines 145, 166, 206). -/
def num_layers (zmin zmax thick : ℚ) : ℤ := ⌈(zmax - zmin) / thick⌉ + 1

/-- Z-height of layer `i` on the node-graph path: `z = zmin + i *
layer_thickness` (sampler.py line 257). -/
def slice_z_graph (zmin thick : ℚ) (i : ℕ) : ℚ := zmin + i * thick

/-- Element `i` of `np.linspace(a, b, n)`: `a + i * (b - a) / (n - 1)`
for `n ≥ 2`, and `a` when `n ≤ 1`. -/
def linspace (a b : ℚ) (n i : ℕ) : ℚ :=
  if n ≤ 1 then a else a + i * (b - a) / (n - 1)

/-- Z-height of layer `i` on the flat-document paths (sampler.py lines
149, 170): element `i` of `np.linspace(zmin, zmax, num_layers)`. -/
def slice_z_flat (zmin zmax thick : ℚ) (i : ℕ) : ℚ :=
  linspace zmin zmax (num_layers zmin zmax thick).toNat i

/-- Pixel written for one field sample:
`img_arr = (255 * (field_vals < 0)).astype(np.uint8)` (sampler.py lines
153 and 174) — 255 exactly when the field value is strictly negative. -/
def layerPixel (field : ℚ → ℚ → ℚ → ℚ) (x y z : ℚ) : ℕ :=
  if field x y z < 0 then 255 else 0

/-! ## Box signed-distance field

Two renderings exist in the source: `box` in
src/implicit_core/primitives.py (an if/else on `outside_dist > 0`) and
the `kind == "box"` branch of `_build_sdf_eval` in src/sampler.py
(`outside_dist + min(max(dx, dy, dz), 0)`).  `math.sqrt` is abstracted
as an oracle `sq`. -/

/-- Component-wise offset vector `d = |P - c| - h` of the box SDF. -/
def boxOffsets (c h : ℚ × ℚ × ℚ) (x y z : ℚ) : ℚ × ℚ × ℚ :=
  (|x - c.1| - h.1, |y - c.2.1| - h.2.1, |z - c.2.2| - h.2.2)

/-- Outside distance `sqrt(max(dx,0)² + max(dy,0)² + max(dz,0)²)` of the box SDF. -/
def boxOutside (sq : ℚ → ℚ) (c h : ℚ × ℚ × ℚ) (x y z : ℚ) : ℚ :=
  let d := boxOffsets c h x y z
  sq (max d.1 0 ^ 2 + max d.2.1 0 ^ 2 + max d.2.2 0 ^ 2)

/-- Inside distance `max(dx, dy, dz)` of the box SDF. -/
def boxInside (c h : ℚ × ℚ × ℚ) (x y z : ℚ) : ℚ :=
  let d := boxOffsets c h x y z
  max d.1 (max d.2.1 d.2.2)

/-- Box SDF of src/implicit_core/primitives.py:
`outside_dist if outside_dist > 0 else inside_dist`. -/
def box_sdf (sq : ℚ → ℚ) (c h : ℚ × ℚ × ℚ) (x y z : ℚ) : ℚ :=
  if boxOutside sq c h x y z > 0 then boxOutside sq c h x y z
  else boxInside c h x y z

/-- Box evaluator of the flat-document path (`kind == "box"` in
src/sampler.py, _build_sdf_eval): `outside_dist + inside_dist` with
`inside_dist = min(max(dx, max(dy, dz)), 0.0)`. -/
def box_flat (sq : ℚ → ℚ) (c h : ℚ × ℚ × ℚ) (x y z : ℚ) : ℚ :=
  boxOutside sq c h x y z + min (boxInside c h x y z) 0

/-- Modelled from the spec: the two-branch box formula as §4.4 of the
specification words it — with `d = |P - c| - h` component-wise,
`length(max(d, 0))` when that outside distance is strictly positive,
else `max(d.x, d.y, d.z)`. -/
def box_spec_formula (sq : ℚ → ℚ) (c h : ℚ × ℚ × ℚ) (x y z : ℚ) : ℚ :=
  if 0 < boxOutside sq c h x y z then boxOutside sq c h x y z
  else boxInside c h x y z

/-! ## Constructor-time behaviour of the field constructors
(src/implicit_core/primitives.py, lattice/periodic.py, lattice/organic.py)

None of these constructors validates its parameters: `cylinder` divides
by `math.sqrt(vx²+vy²+vz²)` — a ZeroDivisionError when the axis
direction is the zero vector; the three periodic lattices compute
`2π/cell_size` — a ZeroDivisionError when `cell_size == 0` and a silent
success when it is negative; `voronoi_foam` only checks that `points`
is an (N, 3) array, so a single seed constructs successfully and the
failure (`np.argpartition(dists_sq, 1)` with kth out of bounds, a
ValueError) only surfaces when the returned SDF is evaluated.
`math.sin`, `math.cos`, `math.sqrt` and the float constant `math.pi`
are abstracted as oracles. -/

/-- Oracles for the transcendental functions and the external mesh
collaborator that the embedded code calls. -/
structure Oracles where
  sq : ℚ → ℚ
  sin : ℚ → ℚ
  cos : ℚ → ℚ
  pi : ℚ
  meshSDF : String → ℚ → ℚ → ℚ → ℚ

/-- Cylinder constructor (src/implicit_core/primitives.py): normalizes
the axis with `inv_len = 1.0 / math.sqrt(vx*vx + vy*vy + vz*vz)` —
Python raises ZeroDivisionError exactly when that square root is 0 —
then returns the SDF `sqrt(|(P-P0) - dot(P-P0,V)·V|) - radius`. -/
def cylinder (O : Oracles) (axisPoint axisDir : ℚ × ℚ × ℚ) (radius : ℚ) :
    Except PyErr (ℚ → ℚ → ℚ → ℚ) :=
  let (px0, py0, pz0) := axisPoint
  let (vx0, vy0, vz0) := axisDir
  let len := O.sq (vx0 * vx0 + vy0 * vy0 + vz0 * vz0)
  if len = 0 then .error .zeroDivisionError
  else
    let invLen := 1 / len
    let vx := vx0 * invLen
    let vy := vy0 * invLen
    let vz := vz0 * invLen
    .ok (fun x y z =>
      let dx := x - px0
      let dy := y - py0
      let dz := z - pz0
      let t := dx * vx + dy * vy + dz * vz
      let ax := dx - t * vx
      let ay := dy - t * vy
      let az := dz - t * vz
      O.sq (ax * ax + ay * ay + az * az) - radius)

/-- Gyroid constructor (src/implicit_core/lattice/periodic.py): computes
`inv_lambda = 2.0 * math.pi / cell_size` — ZeroDivisionError exactly
when `cell_size == 0` — then returns the shifted TPMS field. -/
def gyroid (O : Oracles) (cellSize thickness : ℚ) :
    Except PyErr (ℚ → ℚ → ℚ → ℚ) :=
  if cellSize = 0 then .error .zeroDivisionError
  else
    let invLambda := 2 * O.pi / cellSize
    .ok (fun x y z =>
      O.sin (invLambda * x) * O.cos (invLambda * y) +
      O.sin (invLambda * y) * O.cos (invLambda * z) +
      O.sin (invLambda * z) * O.cos (invLambda * x) - thickness)

/-- Schwarz-P constructor (src/implicit_core/lattice/periodic.py): same
`2π/cell_size` division, then `cos(kx) + cos(ky) + cos(kz) - thickness`. -/
def schwarz_p (O : Oracles) (cellSize thickness : ℚ) :
    Except PyErr (ℚ → ℚ → ℚ → ℚ) :=
  if cellSize = 0 then .error .zeroDivisionError
  else
    let invLambda := 2 * O.pi / cellSize
    .ok (fun x y z =>
      O.cos (invLambda * x) + O.cos (invLambda * y) + O.cos (invLambda * z)
        - thickness)

/-- Diamond constructor (src/implicit_core/lattice/periodic.py): same
`2π/cell_size` division, then the four-term diamond TPMS field. -/
def diamond (O : Oracles) (cellSize thickness : ℚ) :
    Except PyErr (ℚ → ℚ → ℚ → ℚ) :=
  if cellSize = 0 then .error .zeroDivisionError
  else
    let invLambda := 2 * O.pi / cellSize
    .ok (fun x y z =>
      O.sin (invLambda * x) * O.sin (invLambda * y) * O.sin (invLambda * z) +
      O.sin (invLambda * x) * O.cos (invLambda * y) * O.cos (invLambda * z) +
      O.cos (invLambda * x) * O.sin (invLambda * y) * O.cos (invLambda * z) +
      O.cos (invLambda * x) * O.cos (invLambda * y) * O.sin (invLambda * z)
        - thickness)

/-- Squared Euclidean distances from the query point to every seed
(`np.einsum` over `pts - p` in voronoi_foam's inner `_sdf`). -/
def seedDistsSq (points : List (ℚ × ℚ × ℚ)) (x y z : ℚ) : List ℚ :=
  points.map (fun p =>
    (p.1 - x) ^ 2 + (p.2.1 - y) ^ 2 + (p.2.2 - z) ^ 2)

/-- Voronoi-foam constructor (src/implicit_core/lattice/organic.py):
`np.asarray(points)` of an empty seed list is 1-dimensional, so the
(N, 3)-shape check raises ValueError for N = 0 but passes for every
N ≥ 1; the returned SDF then runs `np.argpartition(dists_sq, 1)`, which
raises ValueError (kth out of bounds) whenever there are fewer than 2
seeds, and otherwise returns `(d2 - d1)/2 - thickness` for the
smallest/second-smallest seed distances `d1 ≤ d2`. -/
def voronoi_foam (O : Oracles) (points : List (ℚ × ℚ × ℚ)) (thickness : ℚ) :
    Except PyErr (ℚ → ℚ → ℚ → Except PyErr ℚ) :=
  if points.length = 0 then .error .valueError
  else
    .ok (fun x y z =>
      if points.length < 2 then .error .valueError
      else
        let sorted := (seedDistsSq points x y z).mergeSort (fun a b => a ≤ b)
        let d1 := O.sq (sorted.getD 0 0)
        let d2 := O.sq (sorted.getD 1 0)
        .ok ((d2 - d1) / 2 - thickness))

/-! ## Node-graph evaluator (src/loader.py)

A node is a JSON record with an `id`, a `type` string, a `params` dict
and an `inputs` list.  The parameter dict is modelled as a record of
optional fields, one per key the evaluator (or the infill injection in
src/sampler.py) ever stores or reads; a `p['key']` subscript on an
absent key is a KeyError, `p.get('key', default)` substitutes the
default, and `ins[k]` on a too-short input list is an IndexError.
`evaluate_node` recurses with no cycle detection and no depth bound, so
it is embedded with a fuel parameter; `PyErr.fuelExhausted` for every
fuel value renders a recursion that never completes. -/

/-- Parameter record of a graph node, one optional field per key used
anywhere in the repository's documents. -/
structure NodeParams where
  size : Option ℚ := none
  radius : Option ℚ := none
  height : Option ℚ := none
  translate : Option (ℚ × ℚ × ℚ) := none
  rotate : Option (ℚ × ℚ × ℚ) := none
  scale : Option (ℚ × ℚ × ℚ) := none
  cell_size : Option (ℚ × ℚ × ℚ) := none
  thickness : Option ℚ := none
  filename : Option String := none
deriving DecidableEq, Repr

/-- Graph node: identifier, type tag, parameters, input identifiers. -/
structure Node where
  id : String
  type : String
  params : NodeParams := {}
  inputs : List String := []
deriving DecidableEq, Repr

/-- Identifier→node map `{n['id']: n for n in nodes}`: a dict
comprehension keeps the last node with each identifier. -/
def nodesMapLookup (nodes : List Node) (nid : String) : Option Node :=
  nodes.reverse.find? (fun n => n.id == nid)

/-- Primitive field `cube_field` (loader.py): `max(|x|,|y|,|z|) - size/2`. -/
def cube_field (x y z size : ℚ) : ℚ := max |x| (max |y| |z|) - size / 2

/-- Primitive field `sphere_field` (loader.py): `sqrt(x²+y²+z²) - radius`. -/
def sphere_field (O : Oracles) (x y z radius : ℚ) : ℚ :=
  O.sq (x * x + y * y + z * z) - radius

/-- Primitive field `cylinder_field` (loader.py):
`max(sqrt(x²+y²) - radius, |z| - height/2)`. -/
def cylinder_field (O : Oracles) (x y z radius height : ℚ) : ℚ :=
  max (O.sq (x * x + y * y) - radius) (|z| - height / 2)

/-- Lattice field `gyroid_field` (loader.py): despite its name this is
the Schwarz-P sum `cos(2πx/cx) + cos(2πy/cy) + cos(2πz/cz)` with a
per-axis cell size. -/
def gyroid_field (O : Oracles) (x y z : ℚ) (cell : ℚ × ℚ × ℚ) : ℚ :=
  O.cos (2 * O.pi * x / cell.1) + O.cos (2 * O.pi * y / cell.2.1) +
    O.cos (2 * O.pi * z / cell.2.2)

/-- List subscript `l[k]` for a non-negative index: the element when in
range, IndexError otherwise. -/
def pyIndex {α : Type} (l : List α) (k : Nat) : Except PyErr α :=
  match l.get? k with
  | none => .error .indexError
  | some v => .ok v

/-- Recursive evaluator `evaluate_node` (loader.py).  Dispatch follows
the source's if-chain on the type string; `fuel` bounds the recursion
depth, with `fuelExhausted` returned when it runs out. -/
def evalNode (O : Oracles) : Nat → List Node → String → ℚ → ℚ → ℚ →
    Except PyErr ℚ
  | 0, _, _, _, _, _ => .error .fuelExhausted
  | fuel + 1, nodes, nid, x, y, z =>
    match nodesMapLookup nodes nid with
    | none => .error .keyError
    | some node =>
      let p := node.params
      let ins := node.inputs
      if node.type = "Cube" then
        match p.size with
        | none => .error .keyError
        | some size => .ok (cube_field x y z size)
      else if node.type = "Sphere" then
        match p.radius with
        | none => .error .keyError
        | some radius => .ok (sphere_field O x y z radius)
      else if node.type = "Cylinder" then
        match p.radius, p.height with
        | none, _ => .error .keyError
        | _, none => .error .keyError
        | some radius, some height => .ok (cylinder_field O x y z radius height)
      else if node.type = "Transform" then do
        let src ← pyIndex ins 0
        let t := p.translate.getD (0, 0, 0)
        evalNode O fuel nodes src (x - t.1) (y - t.2.1) (z - t.2.2)
      else if node.type = "Union" then do
        let i0 ← pyIndex ins 0
        let v0 ← evalNode O fuel nodes i0 x y z
        let i1 ← pyIndex ins 1
        let v1 ← evalNode O fuel nodes i1 x y z
        pure (min v0 v1)
      else if node.type = "Subtract" then do
        let i0 ← pyIndex ins 0
        let v0 ← evalNode O fuel nodes i0 x y z
        let i1 ← pyIndex ins 1
        let v1 ← evalNode O fuel nodes i1 x y z
        pure (max v0 (-v1))
      else if node.type = "Intersect" then do
        let i0 ← pyIndex ins 0
        let v0 ← evalNode O fuel nodes i0 x y z
        let i1 ← pyIndex ins 1
        let v1 ← evalNode O fuel nodes i1 x y z
        pure (max v0 v1)
      else if node.type = "Lattice" then
        match p.cell_size, p.thickness with
        | none, _ => .error .keyError
        | _, none => .error .keyError
        | some cell, some thickness =>
          .ok (|gyroid_field O x y z cell| - thickness)
      else if node.type = "Mesh" then
        match p.filename with
        | none => .error .keyError
        | some path => .ok (O.meshSDF path x y z)
      else
        .error .valueError

/-! ## Helper lemmas for the RLE round-trips -/

theorem lor128_eq_add : ∀ t < 128, 128 ||| t = 128 + t := by decide

/-- Value byte emitted for bit `v` decodes back to `v`. -/
theorem valueByte_decode (v : Bool) : ((if v then (255 : Nat) else 0) == 255) = v := by
  cases v <;> simp

/-- Decoding the capped chunks of one run prepends that run's pixels. -/
theorem decode_emitChunks (run : Nat) (v : Bool) (rest : List Nat) :
    rle_decode_ctb (emitChunks run v ++ rest) =
      List.replicate run v ++ rle_decode_ctb rest := by
  induction run using Nat.strong_induction_on with
  | _ run ih =>
    match run with
    | 0 => simp [emitChunks]
    | r + 1 =>
      rw [emitChunks]
      simp only [List.cons_append]
      rw [rle_decode_ctb]
      have hmin : min (r + 1) 127 < 128 := by omega
      rw [lor128_eq_add _ hmin, ih (r + 1 - min (r + 1) 127) (by omega)]
      rw [Nat.add_mod_left, Nat.mod_eq_of_lt hmin, valueByte_decode]
      rw [← List.append_assoc, ← List.replicate_add]
      congr 2
      omega

/-- Every pixel inside the counted run has the run's value. -/
theorem runLen_spec (bits : Nat → Bool) (v : Bool) (start rem : Nat) :
    ∀ j < runLen bits v start rem, bits (start + j) = v := by
  induction rem generalizing start with
  | zero => simp [runLen]
  | succ r ih =>
    intro j hj
    rw [runLen] at hj
    by_cases hs : bits start = v
    · rw [if_pos hs] at hj
      match j with
      | 0 => simpa using hs
      | j' + 1 =>
        have := ih (start + 1) j' (by omega)
        simpa [Nat.add_assoc, Nat.add_comm 1 j'] using this
    · rw [if_neg hs] at hj
      omega

/-- Decoding one encoded row prepends that row's pixels. -/
theorem decode_encodeRowAux (bits : Nat → Bool) (idx rem : Nat) (rest : List Nat) :
    rle_decode_ctb (encodeRowAux bits idx rem ++ rest) =
      (List.range rem).map (fun j => bits (idx + j)) ++ rle_decode_ctb rest := by
  induction rem using Nat.strong_induction_on generalizing idx with
  | _ rem ih =>
    match rem with
    | 0 => simp [encodeRowAux]
    | r + 1 =>
      rw [encodeRowAux]
      have hpos : 1 ≤ runLen bits (bits idx) idx (r + 1) := runLen_pos bits idx r
      have hle : runLen bits (bits idx) idx (r + 1) ≤ r + 1 := runLen_le ..
      simp only [List.append_assoc]
      set n := runLen bits (bits idx) idx (r + 1) with hn
      rw [decode_emitChunks, ih (r + 1 - n) (by omega)]
      have hsplit : r + 1 = n + (r + 1 - n) := by omega
      conv_rhs => rw [hsplit, List.range_add]
      rw [List.map_append, List.map_map, ← List.append_assoc]
      congr 1
      congr 1
      · symm
        rw [List.eq_replicate_iff]
        refine ⟨by simp, ?_⟩
        intro b hb
        simp only [List.mem_map, List.mem_range] at hb
        obtain ⟨j, hj, rfl⟩ := hb
        exact runLen_spec bits (bits idx) idx (r + 1) j hj
      · apply List.map_congr_left
        intro j hj
        simp only [Function.comp]
        congr 1
        omega

/-- Decoding the encoding of a block of rows prepends those rows' pixels. -/
theorem decode_encodeRowsFrom (bits : Nat → Bool) (w y rows : Nat) (rest : List Nat) :
    rle_decode_ctb (encodeRowsFrom bits w y rows ++ rest) =
      (List.range (rows * w)).map (fun j => bits (y * w + j)) ++ rle_decode_ctb rest := by
  induction rows generalizing y with
  | zero => simp [encodeRowsFrom]
  | succ r ih =>
    rw [encodeRowsFrom]
    simp only [List.append_assoc]
    rw [decode_encodeRowAux, ih (y + 1)]
    have hsplit : (r + 1) * w = w + r * w := by ring
    rw [hsplit, List.range_add, List.map_append, List.map_map]
    rw [← List.append_assoc]
    congr 2
    apply List.map_congr_left
    intro j hj
    simp only [Function.comp]
    congr 1
    ring

/-- Decoding the pw0 loop's output recovers the pending run and the rest. -/
theorem decode_pw0Loop (rest : List Nat) (rv rl : Nat) (h1 : 1 ≤ rl) (h255 : rl ≤ 255) :
    rle_decode_pw0 (pw0Loop rv rl rest) = List.replicate rl rv ++ rest := by
  induction rest generalizing rv rl with
  | nil =>
    rw [pw0Loop, rle_decode_pw0, rle_decode_pw0]
    rw [Nat.mod_eq_of_lt (by omega)]
    simp
  | cons pix rest ih =>
    rw [pw0Loop]
    by_cases hc : pix = rv ∧ rl < 255
    · rw [if_pos hc, ih rv (rl + 1) (by omega) (by omega)]
      rw [List.replicate_succ', hc.1]
      simp
    · rw [if_neg hc, rle_decode_pw0, ih pix 1 (by omega) (by omega)]
      rw [Nat.mod_eq_of_lt (by omega)]
      simp

/-- C1. RLE round-trip for both codec backends: decoding the CTB payload
of any packed binary bitmap reproduces the bitmap's `height*width` bits
exactly, and decoding the `(count, value)` payload of `encode_pw0_image`
(the bytes after its 8-byte header) reproduces any 0/255 grayscale image
exactly; both encoders split runs longer than their caps (127 pixels for
CTB, 255 for Anycubic) into multiple chunks, and the round-trips above
hold for all run lengths, the capped ones included. -/
theorem rle_roundtrip :
    (∀ (raw : List Nat) (width height : Nat),
      rle_decode_ctb (rle_encode_ctb raw width height) = bitmapBits raw width height)
    ∧ (∀ (flat : List Nat) (width height : Nat),
        flat.length = width * height → flat ≠ [] →
        (∀ v ∈ flat, v = 0 ∨ v = 255) →
        (encode_pw0_image flat width height 0 0).map
            (fun bytes => rle_decode_pw0 (bytes.drop 8)) = .ok flat) := by
  constructor
  · intro raw width height
    have h := decode_encodeRowsFrom (testBitCTB raw) width 0 height []
    simpa [rle_encode_ctb, bitmapBits, rle_decode_ctb] using h
  · intro flat width height hlen hne hvals
    match flat, hne with
    | p :: rest, _ =>
      have hbin : List.map binarize (p :: rest) = p :: rest := by
        conv_rhs => rw [← List.map_id (p :: rest)]
        apply List.map_congr_left
        intro v hv
        rcases hvals v hv with rfl | rfl <;> rfl
      rw [encode_pw0_image, if_neg (by simp [hlen]), hbin]
      show (Except.ok (le16 width ++ le16 height ++ le16 0 ++ le16 0 ++
          pw0Loop p 1 rest)).map
          (fun bytes => rle_decode_pw0 (bytes.drop 8)) = Except.ok (p :: rest)
      have hdrop : (le16 width ++ le16 height ++ le16 0 ++ le16 0 ++
          pw0Loop p 1 rest).drop 8 = pw0Loop p 1 rest := by
        simp [le16]
      simp only [Except.map, hdrop]
      rw [decode_pw0Loop rest p 1 (by omega) (by omega)]
      simp

/-- Witness for C1 at a concrete 2×2 image, discharging the pw0 hypotheses. -/
theorem rle_roundtrip_witness :
    (encode_pw0_image [0, 255, 255, 0] 2 2 0 0).map
        (fun bytes => rle_decode_pw0 (bytes.drop 8)) = .ok [0, 255, 255, 0] :=
  rle_roundtrip.2 [0, 255, 255, 0] 2 2 (by decide) (by decide) (by decide)

/-! ## Helper lemmas for the CTB chunk invariants -/

/-- Run-length total of the chunks emitted for one run. -/
theorem emitChunks_runSum (run : Nat) (v : Bool) (rest : List Nat) :
    ((chunkPairs (emitChunks run v ++ rest)).map (fun pr => pr.1 % 128)).sum
      = run + ((chunkPairs rest).map (fun pr => pr.1 % 128)).sum := by
  induction run using Nat.strong_induction_on with
  | _ run ih =>
    match run with
    | 0 => simp [emitChunks]
    | r + 1 =>
      rw [emitChunks]
      simp only [List.cons_append]
      rw [chunkPairs]
      have hmin : min (r + 1) 127 < 128 := by omega
      simp only [List.map_cons, List.sum_cons]
      rw [ih (r + 1 - min (r + 1) 127) (by omega)]
      rw [lor128_eq_add _ hmin, Nat.add_mod_left, Nat.mod_eq_of_lt hmin]
      omega

/-- Shape of every chunk pair emitted for one run. -/
theorem emitChunks_pairs_mem (run : Nat) (v : Bool) (rest : List Nat) :
    ∀ pr ∈ chunkPairs (emitChunks run v ++ rest),
      (1 ≤ pr.1 % 128 ∧ pr.1 % 128 ≤ 127 ∧ 129 ≤ pr.1 ∧ pr.1 ≤ 255 ∧
        (pr.2 = 0 ∨ pr.2 = 255)) ∨ pr ∈ chunkPairs rest := by
  induction run using Nat.strong_induction_on with
  | _ run ih =>
    match run with
    | 0 =>
      intro pr hpr
      exact Or.inr (by simpa [emitChunks] using hpr)
    | r + 1 =>
      intro pr hpr
      rw [emitChunks] at hpr
      simp only [List.cons_append] at hpr
      rw [chunkPairs] at hpr
      rcases List.mem_cons.mp hpr with heq | hmem
      · left
        have hmin1 : 1 ≤ min (r + 1) 127 := by omega
        have hmin : min (r + 1) 127 < 128 := by omega
        subst heq
        rw [lor128_eq_add _ hmin]
        simp only [Nat.add_mod_left, Nat.mod_eq_of_lt hmin]
        refine ⟨hmin1, by omega, by omega, by omega, ?_⟩
        cases v
        · exact Or.inl rfl
        · exact Or.inr rfl
      · exact ih (r + 1 - min (r + 1) 127) (by omega) pr hmem

theorem emitChunks_length_even (run : Nat) (v : Bool) :
    (emitChunks run v).length % 2 = 0 := by
  induction run using Nat.strong_induction_on with
  | _ run ih =>
    match run with
    | 0 => simp [emitChunks]
    | r + 1 =>
      rw [emitChunks]
      simp only [List.length_cons]
      have := ih (r + 1 - min (r + 1) 127) (by omega)
      omega

theorem encodeRowAux_length_even (bits : Nat → Bool) (idx rem : Nat) :
    (encodeRowAux bits idx rem).length % 2 = 0 := by
  induction rem using Nat.strong_induction_on generalizing idx with
  | _ rem ih =>
    match rem with
    | 0 => simp [encodeRowAux]
    | r + 1 =>
      rw [encodeRowAux]
      have hpos : 1 ≤ runLen bits (bits idx) idx (r + 1) := runLen_pos bits idx r
      rw [List.length_append]
      have h1 := emitChunks_length_even (runLen bits (bits idx) idx (r + 1)) (bits idx)
      have h2 := ih (r + 1 - runLen bits (bits idx) idx (r + 1)) (by omega)
          (idx + runLen bits (bits idx) idx (r + 1))
      omega

/-- Run-length total of one encoded row is the row's pixel width. -/
theorem encodeRowAux_runSum (bits : Nat → Bool) (idx rem : Nat) (rest : List Nat) :
    ((chunkPairs (encodeRowAux bits idx rem ++ rest)).map (fun pr => pr.1 % 128)).sum
      = rem + ((chunkPairs rest).map (fun pr => pr.1 % 128)).sum := by
  induction rem using Nat.strong_induction_on generalizing idx with
  | _ rem ih =>
    match rem with
    | 0 => simp [encodeRowAux]
    | r + 1 =>
      rw [encodeRowAux]
      have hpos : 1 ≤ runLen bits (bits idx) idx (r + 1) := runLen_pos bits idx r
      have hle : runLen bits (bits idx) idx (r + 1) ≤ r + 1 := runLen_le ..
      simp only [List.append_assoc]
      rw [emitChunks_runSum]
      rw [ih (r + 1 - runLen bits (bits idx) idx (r + 1)) (by omega)]
      omega

/-- Shape of every chunk pair of one encoded row. -/
theorem encodeRowAux_pairs_mem (bits : Nat → Bool) (idx rem : Nat) (rest : List Nat) :
    ∀ pr ∈ chunkPairs (encodeRowAux bits idx rem ++ rest),
      (1 ≤ pr.1 % 128 ∧ pr.1 % 128 ≤ 127 ∧ 129 ≤ pr.1 ∧ pr.1 ≤ 255 ∧
        (pr.2 = 0 ∨ pr.2 = 255)) ∨ pr ∈ chunkPairs rest := by
  induction rem using Nat.strong_induction_on generalizing idx with
  | _ rem ih =>
    match rem with
    | 0 =>
      intro pr hpr
      exact Or.inr (by simpa [encodeRowAux] using hpr)
    | r + 1 =>
      intro pr hpr
      rw [encodeRowAux] at hpr
      have hpos : 1 ≤ runLen bits (bits idx) idx (r + 1) := runLen_pos bits idx r
      simp only [List.append_assoc] at hpr
      rcases emitChunks_pairs_mem _ _ _ pr hpr with hgood | hrest
      · exact Or.inl hgood
      · exact ih (r + 1 - runLen bits (bits idx) idx (r + 1)) (by omega) _ pr hrest

/-- The row loop's output is the concatenation of the rows' encodings. -/
theorem encodeRowsFrom_eq_join (bits : Nat → Bool) (w y rows : Nat) :
    encodeRowsFrom bits w y rows
      = ((List.range rows).map (fun k => encodeRowAux bits ((y + k) * w) w)).flatten := by
  induction rows generalizing y with
  | zero => simp [encodeRowsFrom]
  | succ r ih =>
    rw [encodeRowsFrom, ih (y + 1), List.range_succ_eq_map]
    simp only [List.map_cons, List.flatten, List.map_map]
    congr 2
    apply List.map_congr_left
    intro k hk
    simp only [Function.comp]
    congr 2
    omega

/-- C9. Chunk invariants of the CTB encoder's output: the payload is the
concatenation of the independent row encodings (so no run spans two
rows); every row encoding is a sequence of 2-byte chunks whose first
byte is `0x80 | run` with run length `run` in `[1, 127]` and whose
second byte is 0x00 or 0xFF; and within each row the run lengths sum
exactly to the pixel width. -/
theorem ctb_payload_chunk_invariants : ∀ (raw : List Nat) (width height : Nat),
    rle_encode_ctb raw width height
      = ((List.range height).map
          (fun y => encodeRowAux (testBitCTB raw) (y * width) width)).flatten
    ∧ ∀ y : Nat,
        (encodeRowAux (testBitCTB raw) (y * width) width).length % 2 = 0
        ∧ (∀ pr ∈ chunkPairs (encodeRowAux (testBitCTB raw) (y * width) width),
            1 ≤ pr.1 % 128 ∧ pr.1 % 128 ≤ 127 ∧ 129 ≤ pr.1 ∧ pr.1 ≤ 255 ∧
              (pr.2 = 0 ∨ pr.2 = 255))
        ∧ ((chunkPairs (encodeRowAux (testBitCTB raw) (y * width) width)).map
            (fun pr => pr.1 % 128)).sum = width := by
  intro raw width height
  refine ⟨?_, ?_⟩
  · rw [rle_encode_ctb, encodeRowsFrom_eq_join]
    congr 1
    apply List.map_congr_left
    intro k hk
    congr 2
    omega
  · intro y
    refine ⟨encodeRowAux_length_even .., ?_, ?_⟩
    · intro pr hpr
      have hpr2 : pr ∈ chunkPairs (encodeRowAux (testBitCTB raw) (y * width) width ++ []) := by
        simpa using hpr
      rcases encodeRowAux_pairs_mem _ _ _ [] pr hpr2 with hgood | hrest
      · exact hgood
      · simp [chunkPairs] at hrest
    · have := encodeRowAux_runSum (testBitCTB raw) (y * width) width []
      simpa [chunkPairs] using this

/-! ## Helper lemmas for the offset table -/

theorem buildOffsets_length (acc : Nat) (lens : List Nat) :
    (buildOffsets acc lens).length = lens.length + 1 := by
  induction lens generalizing acc with
  | nil => rfl
  | cons l rest ih => simp [buildOffsets, ih]

theorem buildOffsets_head (acc : Nat) (lens : List Nat) :
    (buildOffsets acc lens).getD 0 0 = acc := by
  cases lens <;> rfl

theorem buildOffsets_step (lens : List Nat) (acc k : Nat) (hk : k < lens.length) :
    (buildOffsets acc lens).getD (k + 1) 0
      = (buildOffsets acc lens).getD k 0 + lens.getD k 0 := by
  induction lens generalizing acc k with
  | nil => simp at hk
  | cons l rest ih =>
    match k with
    | 0 =>
      rw [buildOffsets]
      simp only [List.getD_cons_succ, List.getD_cons_zero]
      rw [buildOffsets_head]
    | k + 1 =>
      rw [buildOffsets]
      simp only [List.getD_cons_succ]
      exact ih (acc + l) k (by simpa using hk)

theorem getD_map_len (layers : List (List Nat)) (f : List Nat → Nat) (k : Nat)
    (hk : k < layers.length) :
    (layers.map f).getD k 0 = f (layers.getD k []) := by
  induction layers generalizing k with
  | nil => simp at hk
  | cons hd tl ih =>
    match k with
    | 0 => rfl
    | k + 1 =>
      simp only [List.map_cons, List.getD_cons_succ]
      exact ih k (by simpa using hk)

/-- C2. Offset table of the CTB archive writer: for every non-empty layer
sequence it has exactly `layer_count + 1` entries, starts at 0, and each
consecutive difference is the byte length of the corresponding layer's
RLE payload. -/
theorem ctb_offset_table : ∀ (layers : List (List Nat)) (width height : Nat),
    layers ≠ [] →
    (ctb_offsets layers width height).length = layers.length + 1
    ∧ (ctb_offsets layers width height).getD 0 0 = 0
    ∧ ∀ k < layers.length,
        (ctb_offsets layers width height).getD (k + 1) 0
          = (ctb_offsets layers width height).getD k 0
            + (rle_encode_ctb (layers.getD k []) width height).length
        ∧ (ctb_offsets layers width height).getD (k + 1) 0
            - (ctb_offsets layers width height).getD k 0
          = (rle_encode_ctb (layers.getD k []) width height).length := by
  intro layers width height hne
  refine ⟨?_, buildOffsets_head .., ?_⟩
  · rw [ctb_offsets, buildOffsets_length, List.length_map]
  · intro k hk
    have hstep := buildOffsets_step
      (layers.map (fun raw => (rle_encode_ctb raw width height).length)) 0 k
      (by simpa using hk)
    rw [getD_map_len _ _ k hk] at hstep
    rw [ctb_offsets]
    exact ⟨hstep, by omega⟩

/-- Witness for C2 on a concrete two-layer archive. -/
theorem ctb_offset_table_witness :
    (ctb_offsets [[240], [0]] 4 2).length = 3
    ∧ (ctb_offsets [[240], [0]] 4 2).getD 1 0 - (ctb_offsets [[240], [0]] 4 2).getD 0 0
        = (rle_encode_ctb [240] 4 2).length :=
  ⟨(ctb_offset_table [[240], [0]] 4 2 (by decide)).1,
   ((ctb_offset_table [[240], [0]] 4 2 (by decide)).2.2 0 (by decide)).2⟩

/-- C3 counterexample: with bounds `zmin = 0 ≤ zmax = 1` and layer
thickness 2/5, the flat-document slicing path samples layer 1 at
z = 1/3 (the linspace point), not at `zmin + 1·thickness = 2/5` —
so the claim's z-height formula fails on the flat paths. -/
theorem slicer_z_claim_counterexample :
    (0 : ℚ) ≤ 1 ∧ (0 : ℚ) < 2/5
    ∧ num_layers 0 1 (2/5) = 4
    ∧ slice_z_flat 0 1 (2/5) 1 = 1/3
    ∧ slice_z_graph 0 (2/5) 1 = 2/5
    ∧ slice_z_flat 0 1 (2/5) 1 ≠ 0 + 1 * (2/5) := by
  have hceil : (⌈(5/2 : ℚ)⌉ : ℤ) = 3 := by norm_num [Int.ceil_eq_iff]
  refine ⟨by norm_num, by norm_num, ?_, ?_, ?_, ?_⟩ <;>
      norm_num [num_layers, slice_z_flat, slice_z_graph, linspace, hceil] <;>
      simp <;> norm_num

/-- C3, amended.  Every slicing path produces `⌈(zmax - zmin)/thick⌉ + 1`
layers; the node-graph path samples layer `i` at exactly
`zmin + i·thickness`, in strictly ascending index order; the flat paths
sample at the linspace points, which coincide with `zmin + i·thickness`
only when `zmax - zmin` is an exact positive multiple of the thickness. -/
theorem slicer_layers_amended : ∀ (zmin zmax thick : ℚ), zmin ≤ zmax → 0 < thick →
    num_layers zmin zmax thick = ⌈(zmax - zmin) / thick⌉ + 1
    ∧ 1 ≤ num_layers zmin zmax thick
    ∧ (∀ i : ℕ, slice_z_graph zmin thick i = zmin + i * thick)
    ∧ (∀ i : ℕ, slice_z_graph zmin thick i < slice_z_graph zmin thick (i + 1))
    ∧ (∀ k : ℕ, 1 ≤ k → zmax - zmin = k * thick →
        ∀ i : ℕ, slice_z_flat zmin zmax thick i = slice_z_graph zmin thick i) := by
  intro zmin zmax thick hz ht
  refine ⟨rfl, ?_, fun i => rfl, ?_, ?_⟩
  · have h1 : (0 : ℚ) ≤ (zmax - zmin) / thick := div_nonneg (by linarith) ht.le
    have h2 := Int.ceil_nonneg h1
    rw [num_layers]
    omega
  · intro i
    rw [slice_z_graph, slice_z_graph]
    have hi : ((i : ℚ) + 1) * thick = i * thick + thick := by ring
    push_cast
    linarith
  · intro k hk hzz i
    have hkq : (k : ℚ) ≠ 0 := Nat.cast_ne_zero.mpr (by omega)
    have hnl : num_layers zmin zmax thick = (k : ℤ) + 1 := by
      rw [num_layers, hzz, mul_div_assoc, div_self ht.ne', mul_one]
      norm_num
    rw [slice_z_flat, hnl]
    have htn : ((k : ℤ) + 1).toNat = k + 1 := by omega
    rw [htn, linspace, if_neg (by omega)]
    rw [slice_z_graph, hzz]
    have hcast : ((k + 1 : ℕ) : ℚ) - 1 = (k : ℚ) := by push_cast; ring
    rw [hcast]
    field_simp
    ring

/-- Witness for C3's amended statement at `zmin=0, zmax=2, thick=1`. -/
theorem slicer_layers_amended_witness :
    slice_z_flat 0 2 1 1 = slice_z_graph 0 1 1 ∧ num_layers 0 2 1 = 3 := by
  have h := slicer_layers_amended 0 2 1 (by norm_num) (by norm_num)
  refine ⟨h.2.2.2.2 2 (by norm_num) (by norm_num) 1, ?_⟩
  rw [h.1]
  norm_num

/-- C4 counterexample: a sample point lying exactly on the surface
(field value 0) gets pixel value 0 (background), not the 255 the claim's
`≤ 0` rule would require — the code tests `field_vals < 0` strictly. -/
theorem occupancy_boundary_counterexample :
    (fun x _ _ => x : ℚ → ℚ → ℚ → ℚ) 0 0 0 ≤ 0
    ∧ layerPixel (fun x _ _ => x) 0 0 0 = 0
    ∧ layerPixel (fun x _ _ => x) 0 0 0 ≠ 255 := by
  refine ⟨le_refl 0, ?_, ?_⟩ <;> simp [layerPixel]

/-- C4, amended: a pixel is foreground (255) exactly when the field value
at its sample point is strictly negative; a sample with field value 0
(exactly on the surface) is background (0). -/
theorem occupancy_amended : ∀ (field : ℚ → ℚ → ℚ → ℚ) (x y z : ℚ),
    (layerPixel field x y z = 255 ↔ field x y z < 0)
    ∧ (layerPixel field x y z = 0 ↔ ¬ field x y z < 0) := by
  intro field x y z
  rw [layerPixel]
  split
  · rename_i h
    simp [h]
  · rename_i h
    simp [h]

/-- C7. Box field two-branch formula: for every center, half-extents and
query point, the primitives-module box SDF is exactly the spec's
two-branch formula (including the boundary case `outside_dist == 0`
selecting the inside branch), and the flat-document box evaluator in
the sampler computes the same value at every point.  The square root is
abstracted as any function `sq` that is nonnegative on nonnegatives and
vanishes exactly at 0 there. -/
theorem box_two_branch : ∀ (sq : ℚ → ℚ),
    (∀ q, 0 ≤ q → 0 ≤ sq q) → (∀ q, 0 ≤ q → (sq q = 0 ↔ q = 0)) →
    ∀ (c h : ℚ × ℚ × ℚ) (x y z : ℚ),
      box_sdf sq c h x y z = box_spec_formula sq c h x y z
      ∧ box_flat sq c h x y z = box_spec_formula sq c h x y z
      ∧ (boxOutside sq c h x y z = 0 →
          box_spec_formula sq c h x y z = boxInside c h x y z) := by
  intro sq hnn hz c h x y z
  simp only [box_sdf, box_flat, box_spec_formula, boxOutside, boxInside, boxOffsets]
  set d1 := |x - c.1| - h.1 with hd1
  set d2 := |y - c.2.1| - h.2.1 with hd2
  set d3 := |z - c.2.2| - h.2.2 with hd3
  set S := max d1 0 ^ 2 + max d2 0 ^ 2 + max d3 0 ^ 2 with hS
  have hSnn : (0 : ℚ) ≤ S := by positivity
  have hiff := hz S hSnn
  have hnn2 := hnn S hSnn
  refine ⟨by trivial, ?_, ?_⟩
  · by_cases hpos : 0 < sq S
    · rw [if_pos hpos]
      have hSpos : 0 < S :=
        lt_of_le_of_ne hSnn (fun h0 => absurd (hiff.mpr h0.symm) (ne_of_gt hpos))
      have hcomp : 0 < d1 ∨ 0 < d2 ∨ 0 < d3 := by
        by_contra hcon
        push_neg at hcon
        obtain ⟨h1, h2, h3⟩ := hcon
        have hzero : S = 0 := by
          rw [hS, max_eq_right h1, max_eq_right h2, max_eq_right h3]
          norm_num
        linarith
      have hins : 0 < max d1 (max d2 d3) := by
        rcases hcomp with h1 | h2 | h3
        · exact lt_of_lt_of_le h1 (le_max_left _ _)
        · exact lt_of_lt_of_le h2 (le_trans (le_max_left _ _) (le_max_right _ _))
        · exact lt_of_lt_of_le h3 (le_trans (le_max_right _ _) (le_max_right _ _))
      rw [min_eq_right hins.le, add_zero]
    · rw [if_neg hpos]
      have hz0 : sq S = 0 := le_antisymm (not_lt.mp hpos) hnn2
      have hS0 : S = 0 := hiff.mp hz0
      have hb1 : max d1 0 ≤ 0 := by
        nlinarith [sq_nonneg (max d1 0), sq_nonneg (max d2 0), sq_nonneg (max d3 0),
          le_max_right d1 (0 : ℚ)]
      have hb2 : max d2 0 ≤ 0 := by
        nlinarith [sq_nonneg (max d1 0), sq_nonneg (max d2 0), sq_nonneg (max d3 0),
          le_max_right d2 (0 : ℚ)]
      have hb3 : max d3 0 ≤ 0 := by
        nlinarith [sq_nonneg (max d1 0), sq_nonneg (max d2 0), sq_nonneg (max d3 0),
          le_max_right d3 (0 : ℚ)]
      have hle1 : d1 ≤ 0 := le_trans (le_max_left d1 0) hb1
      have hle2 : d2 ≤ 0 := le_trans (le_max_left d2 0) hb2
      have hle3 : d3 ≤ 0 := le_trans (le_max_left d3 0) hb3
      have hins : max d1 (max d2 d3) ≤ 0 := max_le hle1 (max_le hle2 hle3)
      rw [hz0, min_eq_left hins, zero_add]
  · intro h0
    rw [h0]
    simp

/-- Witness for C7 with the identity as the abstract square root, at a
point outside the unit box. -/
theorem box_two_branch_witness :
    box_flat id (0, 0, 0) (1, 1, 1) 2 0 0
      = box_spec_formula id (0, 0, 0) (1, 1, 1) 2 0 0 :=
  (box_two_branch id (fun _ hq => hq) (fun _ _ => Iff.rfl)
    (0, 0, 0) (1, 1, 1) 2 0 0).2.1

/-! ## Evaluator error behaviour and the Transform parameter reads -/

/-- Self-referential Transform node: a minimal cyclic document. -/
def cyclicNode : Node :=
  { id := "a", type := "Transform", params := { translate := some (0, 0, 0) },
    inputs := ["a"] }

/-- C5 evidence (code bug): on the one-node cyclic document, the
evaluator exhausts every finite recursion budget — the recursion never
completes, and no CyclicGraphError exists anywhere in the code to be
raised (Python dies with RecursionError instead). -/
theorem cyclic_graph_never_terminates : ∀ (O : Oracles) (fuel : Nat) (x y z : ℚ),
    evalNode O fuel [cyclicNode] "a" x y z = .error .fuelExhausted := by
  intro O fuel
  induction fuel with
  | zero => intro x y z; rfl
  | succ n ih =>
    intro x y z
    have hstep : evalNode O (n + 1) [cyclicNode] "a" x y z
        = evalNode O n [cyclicNode] "a" (x - 0) (y - 0) (z - 0) := rfl
    rw [hstep, sub_zero, sub_zero, sub_zero]
    exact ih x y z

/-- Concrete oracle (identity square root) used by the witnesses. -/
def oracleId : Oracles :=
  { sq := id, sin := fun _ => 0, cos := fun _ => 1, pi := 3,
    meshSDF := fun _ _ _ _ => 0 }

/-- C6 evidence (code bug): none of the constructors validates its
parameters.  A zero-length cylinder axis and a zero lattice cell size
die with ZeroDivisionError; a negative cell size silently succeeds; a
single-seed Voronoi foam constructs successfully and only fails (with a
numpy ValueError) when the returned field is evaluated.  No
InvalidParameter error exists anywhere in the code. -/
theorem missing_parameter_validation : ∀ (O : Oracles), O.sq 0 = 0 →
    cylinder O (0, 0, 0) (0, 0, 0) 1 = .error .zeroDivisionError
    ∧ gyroid O 0 1 = .error .zeroDivisionError
    ∧ schwarz_p O 0 1 = .error .zeroDivisionError
    ∧ diamond O 0 1 = .error .zeroDivisionError
    ∧ (gyroid O (-1) 1).isOk = true
    ∧ (∃ f, voronoi_foam O [(0, 0, 0)] 1 = .ok f ∧ f 0 0 0 = .error .valueError) := by
  intro O hsq
  refine ⟨?_, ?_, ?_, ?_, ?_, ⟨_, rfl, rfl⟩⟩
  · simp [cylinder, hsq]
  · simp [gyroid]
  · simp [schwarz_p]
  · simp [diamond]
  · rw [gyroid, if_neg (by norm_num)]
    rfl

/-- Witness for C6 with the identity square-root oracle. -/
theorem missing_parameter_validation_witness :
    cylinder oracleId (0, 0, 0) (0, 0, 0) 1 = .error .zeroDivisionError :=
  (missing_parameter_validation oracleId rfl).1

/-- Root selection of `build_evaluator` (loader.py): `nodes[-1]['id']`,
an IndexError on an empty node list. -/
def rootNodeId (nodes : List Node) : Except PyErr String :=
  match nodes.getLast? with
  | none => .error .indexError
  | some n => .ok n.id

/-- Evaluator built by `build_evaluator` (loader.py): resolve the root —
the last node in document order — then evaluate it recursively. -/
def build_evaluator (O : Oracles) (fuel : Nat) (nodes : List Node) (x y z : ℚ) :
    Except PyErr ℚ := do
  let root ← rootNodeId nodes
  evalNode O fuel nodes root x y z

/-- C10. An empty node sequence fails at root selection with the bare
IndexError of `nodes[-1]`, and evaluating an identifier absent from the
identifier→node map fails with the bare KeyError of the dict subscript;
the error type has no MalformedDocument-style constructor because the
code defines no such error. -/
theorem empty_and_missing_node_errors :
    rootNodeId [] = .error .indexError
    ∧ (∀ (O : Oracles) (fuel : Nat) (x y z : ℚ),
        build_evaluator O fuel [] x y z = .error .indexError)
    ∧ (∀ (O : Oracles) (fuel : Nat) (nodes : List Node) (nid : String) (x y z : ℚ),
        nodesMapLookup nodes nid = none →
        evalNode O (fuel + 1) nodes nid x y z = .error .keyError) := by
  refine ⟨rfl, fun O fuel x y z => rfl, ?_⟩
  intro O fuel nodes nid x y z hnone
  rw [evalNode, hnone]

/-- Sphere leaf node used by the concrete witnesses. -/
def sphereNode : Node := { id := "s", type := "Sphere", params := { radius := some 5 } }

/-- Witness for C10: looking up an absent identifier in a one-node
document yields the KeyError. -/
theorem empty_and_missing_node_errors_witness :
    evalNode oracleId 1 [sphereNode] "nope" 0 0 0 = .error .keyError :=
  empty_and_missing_node_errors.2.2 oracleId 0 [sphereNode] "nope" 0 0 0 (by decide)

/-- Scale/rotate scrubbing: erase the two parameter entries that
`evaluate_node` never reads. -/
def scrubNode (n : Node) : Node :=
  { n with params := { n.params with scale := none, rotate := none } }

theorem nodesMapLookup_scrub (nodes : List Node) (nid : String) :
    nodesMapLookup (nodes.map scrubNode) nid
      = (nodesMapLookup nodes nid).map scrubNode := by
  rw [nodesMapLookup, nodesMapLookup, ← List.map_reverse, List.find?_map]
  congr 1

theorem evalNode_scrub (O : Oracles) (fuel : Nat) (nodes : List Node)
    (nid : String) (x y z : ℚ) :
    evalNode O fuel (nodes.map scrubNode) nid x y z
      = evalNode O fuel nodes nid x y z := by
  induction fuel generalizing nid x y z with
  | zero => rfl
  | succ n ih =>
    rw [evalNode, evalNode, nodesMapLookup_scrub]
    cases hnode : nodesMapLookup nodes nid with
    | none => rfl
    | some node =>
      simp only [Option.map_some']
      obtain ⟨nId, nType, nParams, nInputs⟩ := node
      obtain ⟨psize, pradius, pheight, ptranslate, protate, pscale, pcell, pthick, pfile⟩ :=
        nParams
      simp only [scrubNode]
      simp only [ih]

/-- C8. The evaluated field of a node graph depends only on what survives
scale/rotate scrubbing: two graphs that agree after erasing every
`scale` and `rotate` parameter entry (in particular, a Transform node
with and without the [0.98, 0.98, 0.98] scale injected by the infill
pipeline) evaluate identically at every point. -/
theorem transform_ignores_scale_rotate : ∀ (O : Oracles) (fuel : Nat)
    (ns₁ ns₂ : List Node) (nid : String) (x y z : ℚ),
    ns₁.map scrubNode = ns₂.map scrubNode →
    evalNode O fuel ns₁ nid x y z = evalNode O fuel ns₂ nid x y z := by
  intro O fuel ns₁ ns₂ nid x y z hsc
  rw [← evalNode_scrub O fuel ns₁, ← evalNode_scrub O fuel ns₂, hsc]

/-- Transform node carrying the infill pipeline's scale and rotate
entries (sampler.py, node injection for --infill-gyroid). -/
def infillShrinkNode : Node :=
  { id := "shrink", type := "Transform",
    params := { translate := some (0, 0, 0), rotate := some (0, 0, 0),
                scale := some (49/50, 49/50, 49/50) },
    inputs := ["s"] }

/-- The same Transform node without scale/rotate entries. -/
def plainShrinkNode : Node :=
  { id := "shrink", type := "Transform", params := { translate := some (0, 0, 0) },
    inputs := ["s"] }

/-- Witness for C8: with and without the injected 0.98 scale, the
evaluated field value agrees at a concrete point. -/
theorem transform_ignores_scale_rotate_witness :
    evalNode oracleId 3 [sphereNode, infillShrinkNode] "shrink" 1 2 3
      = evalNode oracleId 3 [sphereNode, plainShrinkNode] "shrink" 1 2 3 :=
  transform_ignores_scale_rotate oracleId 3 _ _ "shrink" 1 2 3 (by decide)
